import Mathlib

/-!
Verification development for the git-ranger sync engine.

The definitions below are a shallow embedding of the Rust sources:
  * src/commands/sync.rs   (sync orchestrator, path resolution, report accounting)
  * src/providers/gitlab.rs (GitLab discovery client, pagination, error mapping)
  * src/config.rs          (configuration data model, environment-string resolution)

Rust `String` is modelled by Lean `String` (character lists; the sources only slice
at ASCII boundaries), `PathBuf` by strings under Unix `Path::join` semantics, and
every external effect — filesystem probes, environment variables, HTTP traffic and
git subprocesses — is passed in as an explicit oracle function, so that all
definitions are executable and the orchestration logic is pure.
-/

namespace GitRanger

/-- Rust `str::split(c)`: splits on every occurrence of `c`, always yielding at least
one (possibly empty) segment — `"".split('/')` is `[""]`, `"a/".split('/')` is
`["a", ""]`. -/
def splitOnChar (c : Char) : List Char → List (List Char)
  | [] => [[]]
  | x :: xs =>
    if x = c then [] :: splitOnChar c xs
    else
      match splitOnChar c xs with
      | [] => [[x]]
      | r :: rs => (x :: r) :: rs

/-- Rust `str::trim_end_matches(".git")`, phrased on the reversed character list:
repeatedly strip the reversed suffix `".git"` (i.e. the prefix `'t','i','g','.'`). -/
def trimRevGit : List Char → List Char
  | 't' :: 'i' :: 'g' :: '.' :: rest => trimRevGit rest
  | s => s

/-- `extract_repo_name` from src/commands/sync.rs: split the URL on `'/'`, take the
last segment (`"unknown"` when there is none — unreachable, since a split is never
empty), and strip trailing `".git"` repetitions. -/
def extract_repo_name (url : String) : String :=
  let parts := splitOnChar '/' url.data
  let lastPart := parts.getLastD "unknown".data
  String.mk (trimRevGit lastPart.reverse).reverse

/-- Rust Unix `Path::join`: an absolute right-hand side replaces the left-hand side
entirely; otherwise the pieces are joined with a single `'/'` separator. -/
def pathJoin (a b : String) : String :=
  if b.data.head? = some '/' then b
  else if a.data = [] then b
  else if a.data.getLast? = some '/' then a ++ b
  else a ++ "/" ++ b

/-- Rust `str::strip_prefix` on character lists. -/
def stripPrefixChars : List Char → List Char → Option (List Char)
  | [], s => some s
  | _ :: _, [] => none
  | p :: ps, x :: xs => if x = p then stripPrefixChars ps xs else none

/-- Rust `str::contains(pat)`: does `pat` occur as a contiguous substring? -/
def containsSub (pat : List Char) : List Char → Bool
  | [] => pat.isEmpty
  | x :: xs => pat.isPrefixOf (x :: xs) || containsSub pat xs

/-- Rust `str::rsplit_once(c)`: split at the last occurrence of `c` into the part
before it and the part after it; `none` when `c` does not occur. -/
def rsplitOnce (c : Char) : List Char → Option (List Char × List Char)
  | [] => none
  | x :: xs =>
    match rsplitOnce c xs with
    | some (bef, aft) => some (x :: bef, aft)
    | none => if x = c then some ([], xs) else none

/-! ## Configuration data model (src/config.rs) -/

/-- `RepoConfig`: one standalone repository entry of the manifest. -/
structure RepoConfig where
  url : String
  local_dir : Option String
deriving DecidableEq

/-- `GroupConfig`: one GitLab group entry of the manifest. -/
structure GroupConfig where
  name : String
  local_dir : Option String
  recursive : Bool
deriving DecidableEq

/-- `GitLabProvider`: host plus the raw (unresolved) token string. -/
structure GitLabProvider where
  host : String
  token : String
deriving DecidableEq

/-- `GitHubProvider` (present in the config model; unused by the sync path). -/
structure GitHubProvider where
  token : String
deriving DecidableEq

/-- `Providers`. -/
structure Providers where
  gitlab : Option GitLabProvider
  github : Option GitHubProvider
deriving DecidableEq

/-- `Groups`. -/
structure Groups where
  gitlab : List GroupConfig
  github : List GroupConfig
deriving DecidableEq

/-- `RangerConfig`: a successfully parsed manifest. -/
structure RangerConfig where
  providers : Providers
  groups : Groups
  repos : List RepoConfig
deriving DecidableEq

/-- `EnvString::resolve` from src/config.rs: a raw value of the shape `$\x7bVAR\x7d`
is looked up in the process environment (an error when the variable is unset); any
other value resolves to itself. The environment is the oracle `env`. -/
def envResolve (env : String → Option String) (v : String) : Except String String :=
  if ("$\x7b".data).isPrefixOf v.data && ("\x7d".data).isSuffixOf v.data then
    let varName := String.mk ((v.data.drop 2).dropLast)
    match env varName with
    | some x => .ok x
    | none => .error ("Environment variable " ++ varName ++ " is not set")
  else .ok v

/-! ## GitLab discovery client (src/providers/gitlab.rs) -/

/-- `GitLabProject`: the project fields deserialized from the API. -/
structure GitLabProject where
  id : Nat
  name : String
  path : String
  path_with_namespace : String
  ssh_url_to_repo : String
  http_url_to_repo : String
deriving DecidableEq

/-- `GitLabError`: the typed failure outcomes of the discovery client. -/
inductive GitLabError where
  | RequestFailed (msg : String)
  | AuthenticationFailed (msg : String)
  | ParseError (msg : String)
  | GroupNotFound (group : String)
deriving DecidableEq

/-- Outcome of one HTTP send: either a transport-level failure (DNS, timeout,
connection reset) or a response carrying a status code and a body of type `β`. -/
inductive SendResult (β : Type) where
  | failure (msg : String)
  | response (status : Nat) (body : β)

/-- The network as seen by one `get_group_projects` call: `send` maps a page number
to the outcome of that page's request, `json` is the body's parse as a project list
(`Response::json`), `text` its rendering as text (`Response::text`, defaulted). -/
structure Server (β : Type) where
  send : Nat → SendResult β
  json : β → Except String (List GitLabProject)
  text : β → String

/-- The pagination loop of `GitLabClient::get_group_projects`. The Rust `loop` runs
at most 100 iterations (pages 1..100: after handling a page it stops when the next
page number exceeds 100), so it is embedded with a fuel argument that the initial
call sets to 100 — the fuel-exhaustion branch is unreachable from `get_group_projects`. -/
def get_group_projects_loop {β : Type} (srv : Server β) (group_path : String) :
    Nat → Nat → List GitLabProject → Except GitLabError (List GitLabProject)
  | _, 0, acc => .ok acc
  | page, fuel + 1, acc =>
    match srv.send page with
    | .failure e => .error (.RequestFailed e)
    | .response status body =>
      if status = 401 ∨ status = 403 then
        .error (.AuthenticationFailed "Invalid or expired token")
      else if status = 404 then
        .error (.GroupNotFound group_path)
      else if ¬ (200 ≤ status ∧ status ≤ 299) then
        .error (.RequestFailed ("HTTP " ++ toString status ++ ": " ++ srv.text body))
      else
        match srv.json body with
        | .error e => .error (.ParseError e)
        | .ok projects =>
          if projects.isEmpty then .ok acc
          else
            let acc2 := acc ++ projects
            if 100 < page + 1 then .ok acc2
            else get_group_projects_loop srv group_path (page + 1) fuel acc2

/-- `GitLabClient::get_group_projects`: paginate from page 1 accumulating projects.
The endpoint URL construction (URL-encoding of the group path, the
`include_subgroups` flag) only shapes the requests the `Server` oracle answers, so
it is absorbed into the oracle. -/
def get_group_projects {β : Type} (srv : Server β) (group_path : String) :
    Except GitLabError (List GitLabProject) :=
  get_group_projects_loop srv group_path 1 100 []

/-- A fault-free paginated server: every request succeeds with HTTP 200 and the body
parses as exactly the page's project list. This realizes "server behavior as a
function from page number to a project list". -/
def pureServer (pages : Nat → List GitLabProject) : Server (List GitLabProject) where
  send := fun p => .response 200 (pages p)
  json := fun b => .ok b
  text := fun _ => ""

/-! ## Sync orchestrator (src/commands/sync.rs) -/

/-- `SyncError` (variants carry their rendered message content). -/
inductive SyncError where
  | ConfigNotFound (p : String)
  | ConfigParseError (m : String)
  | ConfigLoadError (m : String)
  | IoError (m : String)
  | GitError (m : String)
  | GitLabApi (e : GitLabError)
deriving DecidableEq

/-- `RepoSyncInfo`: one unit of synchronization, with its clone-vs-fetch evidence. -/
structure RepoSyncInfo where
  url : String
  name : String
  local_path : String
  git_dir_present : Bool
deriving DecidableEq

/-- `SyncReport`: the accumulator returned by a run. -/
structure SyncReport where
  total_repos : Nat
  repos_to_clone : Nat
  repos_to_fetch : Nat
  repos_cloned : Nat
  repos_fetched : Nat
  repos_skipped : Nat
  errors : List String
deriving DecidableEq

/-- `SyncReport::new` (the all-zero default). -/
def SyncReport.new : SyncReport :=
  ⟨0, 0, 0, 0, 0, 0, []⟩

/-- `should_sync_repo`: with no target filter every repo syncs; otherwise the filter
must occur as a substring of the repo URL. -/
def should_sync_repo (rc : RepoConfig) (target : Option String) : Bool :=
  match target with
  | none => true
  | some t => containsSub t.data rc.url.data

/-- The local-path expression of `analyze_repo`:
`base_dir.join(local_dir).join(name)` with an override, `base_dir.join(name)`
without. -/
def resolve_local_path (base_dir : String) (local_dir : Option String) (name : String) :
    String :=
  match local_dir with
  | some d => pathJoin (pathJoin base_dir d) name
  | none => pathJoin base_dir name

/-- The `RepoSyncInfo` built by `analyze_repo`; `fs` is the filesystem oracle
answering `Path::exists`, probed at `local_path/.git`. -/
def analyze_repo_info (rc : RepoConfig) (base_dir : String) (fs : String → Bool) :
    RepoSyncInfo :=
  let name := extract_repo_name rc.url
  let local_path := resolve_local_path base_dir rc.local_dir name
  { url := rc.url
    name := name
    local_path := local_path
    git_dir_present := fs (pathJoin local_path ".git") }

/-- `analyze_repo`: returns `Result` in Rust, but its body has no error path. -/
def analyze_repo (rc : RepoConfig) (base_dir : String) (fs : String → Bool) :
    Except SyncError RepoSyncInfo :=
  .ok (analyze_repo_info rc base_dir fs)

/-- `convert_gitlab_project_to_repo_config`: strip the group's own name from the
project's namespace path; any remaining subgroup segments (the part before the last
`'/'` of the suffix) extend the group's configured local directory. -/
def convert_gitlab_project_to_repo_config (project : GitLabProject) (group_name : String)
    (base_local_dir : Option String) : RepoConfig :=
  let relative_path : Option String :=
    match stripPrefixChars (group_name ++ "/").data project.path_with_namespace.data with
    | some suffix => (rsplitOnce '/' suffix).map (fun p => String.mk p.1)
    | none => none
  let local_dir : Option String :=
    match relative_path with
    | some subpath => base_local_dir.map (fun base => base ++ "/" ++ subpath)
    | none => base_local_dir
  { url := project.ssh_url_to_repo, local_dir := local_dir }

/-- The per-group behavior of `GitLabClient::get_group_projects` as the orchestrator
sees it: group name and recursive flag to a typed outcome. -/
def GitLabApi : Type :=
  String → Bool → Except GitLabError (List GitLabProject)

/-- The push-loop `repos.push(analyze_repo(repo_config, base_dir)?)` over a list of
repo configurations, with the `?` operator's error propagation made explicit. -/
def analyze_all (base_dir : String) (fs : String → Bool) :
    List RepoConfig → Except SyncError (List RepoSyncInfo)
  | [] => .ok []
  | rc :: rest =>
    match analyze_repo rc base_dir fs with
    | .error e => .error e
    | .ok info =>
      match analyze_all base_dir fs rest with
      | .error e => .error e
      | .ok others => .ok (info :: others)

/-- The group loop of `discover_gitlab_repos`: skip groups not matching the target
filter, call the API per group, convert and analyze each discovered project; a
per-group API failure is a warning and skips only that group. -/
def discover_group_repos (api : GitLabApi) (base_dir : String) (fs : String → Bool)
    (target : Option String) : List GroupConfig → Except SyncError (List RepoSyncInfo)
  | [] => .ok []
  | g :: gs =>
    if (match target with
        | some t => !(containsSub t.data g.name.data)
        | none => false) then
      discover_group_repos api base_dir fs target gs
    else
      match api g.name g.recursive with
      | .ok projects =>
        match analyze_all base_dir fs (projects.map
            (fun project => convert_gitlab_project_to_repo_config project g.name g.local_dir)) with
        | .error e => .error e
        | .ok here =>
          match discover_group_repos api base_dir fs target gs with
          | .error e => .error e
          | .ok rest => .ok (here ++ rest)
      | .error _ => discover_group_repos api base_dir fs target gs

/-- `discover_gitlab_repos`: `none` means "no GitLab targets" — no provider
configured, token resolution failed (warned and skipped), empty token, or client
construction failed (`client_ok` oracle). Otherwise every configured group is
visited in order. -/
def discover_gitlab_repos (cfg : RangerConfig) (base_dir : String) (fs : String → Bool)
    (env : String → Option String) (client_ok : Bool) (api : GitLabApi)
    (target : Option String) : Except SyncError (Option (List RepoSyncInfo)) :=
  match cfg.providers.gitlab with
  | none => .ok none
  | some provider =>
    match envResolve env provider.token with
    | .error _ => .ok none
    | .ok token =>
      if token.data.isEmpty then .ok none
      else if !client_ok then .ok none
      else
        match discover_group_repos api base_dir fs target cfg.groups.gitlab with
        | .error e => .error e
        | .ok repos => .ok (some repos)

/-- `discover_repos`: standalone repos passing the filter first, then the
GitLab-discovered repos (when any). -/
def discover_repos (cfg : RangerConfig) (base_dir : String) (fs : String → Bool)
    (env : String → Option String) (client_ok : Bool) (api : GitLabApi)
    (target : Option String) : Except SyncError (List RepoSyncInfo) :=
  match analyze_all base_dir fs (cfg.repos.filter (fun rc => should_sync_repo rc target)) with
  | .error e => .error e
  | .ok standalone =>
    match discover_gitlab_repos cfg base_dir fs env client_ok api target with
    | .error e => .error e
    | .ok (some gitlab_repos) => .ok (standalone ++ gitlab_repos)
    | .ok none => .ok standalone

/-- `build_initial_report`: total is the target count; each target is tallied as
to-fetch or to-clone by its `.git`-directory evidence. -/
def build_initial_report (repos : List RepoSyncInfo) : SyncReport :=
  repos.foldl
    (fun rep repo =>
      if repo.git_dir_present then { rep with repos_to_fetch := rep.repos_to_fetch + 1 }
      else { rep with repos_to_clone := rep.repos_to_clone + 1 })
    { SyncReport.new with total_repos := repos.length }

/-- One git subprocess invocation: `clone url dest` or `fetch --all` at a path. -/
inductive GitOp where
  | clone (url : String) (dest : String)
  | fetchAll (path : String)
deriving DecidableEq

/-- Outcome oracle for the git subprocess layer: `none` is success (exit status 0),
`some e` a failure with rendered error text `e`. -/
def GitExec : Type :=
  GitOp → Option String

/-- `execute_sync`: visit each target once; fetch when the local clone is present,
clone otherwise; tally the success counter or append a formatted error and continue.
The second component records the git operations invoked, in order. -/
def execute_sync (git : GitExec) :
    List RepoSyncInfo → SyncReport → SyncReport × List GitOp
  | [], report => (report, [])
  | repo :: rest, report =>
    let op := if repo.git_dir_present then GitOp.fetchAll repo.local_path
              else GitOp.clone repo.url repo.local_path
    let report2 :=
      match git op with
      | none =>
        if repo.git_dir_present then
          { report with repos_fetched := report.repos_fetched + 1 }
        else
          { report with repos_cloned := report.repos_cloned + 1 }
      | some e =>
        if repo.git_dir_present then
          { report with errors := report.errors ++ ["Failed to fetch " ++ repo.name ++ ": " ++ e] }
        else
          { report with errors := report.errors ++ ["Failed to clone " ++ repo.name ++ ": " ++ e] }
    let next := execute_sync git rest report2
    (next.1, op :: next.2)

/-- `sync_command` after a successful configuration load (the parsed manifest is
passed in; a failed load aborts before any of this runs). Returns the report
together with the trace of git operations invoked — empty in dry-run mode, which
returns the initial report untouched. -/
def sync_command (cfg : RangerConfig) (dry_run : Bool) (target : Option String)
    (base_dir : String) (fs : String → Bool) (env : String → Option String)
    (client_ok : Bool) (api : GitLabApi) (git : GitExec) :
    Except SyncError (SyncReport × List GitOp) :=
  match discover_repos cfg base_dir fs env client_ok api target with
  | .error e => .error e
  | .ok repos =>
    let report := build_initial_report repos
    if dry_run then .ok (report, [])
    else .ok (execute_sync git repos report)

/-! ## Helper lemmas -/

theorem analyze_all_eq (base_dir : String) (fs : String → Bool) (l : List RepoConfig) :
    analyze_all base_dir fs l = .ok (l.map (fun rc => analyze_repo_info rc base_dir fs)) := by
  induction l with
  | nil => rfl
  | cons rc rest ih =>
    simp [analyze_all, analyze_repo, ih]

theorem build_initial_report_eq (repos : List RepoSyncInfo) :
    build_initial_report repos =
      { total_repos := repos.length
        repos_to_clone := repos.countP (fun t => !t.git_dir_present)
        repos_to_fetch := repos.countP (fun t => t.git_dir_present)
        repos_cloned := 0
        repos_fetched := 0
        repos_skipped := 0
        errors := [] } := by
  have aux : ∀ (l : List RepoSyncInfo) (rep : SyncReport),
      l.foldl
        (fun rep repo =>
          if repo.git_dir_present then { rep with repos_to_fetch := rep.repos_to_fetch + 1 }
          else { rep with repos_to_clone := rep.repos_to_clone + 1 }) rep =
        { rep with
          repos_to_fetch := rep.repos_to_fetch + l.countP (fun t => t.git_dir_present)
          repos_to_clone := rep.repos_to_clone + l.countP (fun t => !t.git_dir_present) } := by
    intro l
    induction l with
    | nil => intro rep; simp
    | cons r rest ih =>
      intro rep
      cases hpres : r.git_dir_present <;>
        simp [hpres, ih, List.countP_cons, SyncReport.mk.injEq] <;> omega
  simp [build_initial_report, aux, SyncReport.new]

theorem execute_sync_total (git : GitExec) (repos : List RepoSyncInfo) (rep : SyncReport) :
    (execute_sync git repos rep).1.total_repos = rep.total_repos := by
  induction repos generalizing rep with
  | nil => rfl
  | cons r rest ih =>
    cases hpres : r.git_dir_present
    · simp only [execute_sync, hpres, Bool.false_eq_true, if_false]
      cases hg : git (GitOp.clone r.url r.local_path) <;> simp [hg, ih]
    · simp only [execute_sync, hpres, if_true]
      cases hg : git (GitOp.fetchAll r.local_path) <;> simp [hg, ih]

theorem execute_sync_to_clone (git : GitExec) (repos : List RepoSyncInfo) (rep : SyncReport) :
    (execute_sync git repos rep).1.repos_to_clone = rep.repos_to_clone := by
  induction repos generalizing rep with
  | nil => rfl
  | cons r rest ih =>
    cases hpres : r.git_dir_present
    · simp only [execute_sync, hpres, Bool.false_eq_true, if_false]
      cases hg : git (GitOp.clone r.url r.local_path) <;> simp [hg, ih]
    · simp only [execute_sync, hpres, if_true]
      cases hg : git (GitOp.fetchAll r.local_path) <;> simp [hg, ih]

theorem execute_sync_to_fetch (git : GitExec) (repos : List RepoSyncInfo) (rep : SyncReport) :
    (execute_sync git repos rep).1.repos_to_fetch = rep.repos_to_fetch := by
  induction repos generalizing rep with
  | nil => rfl
  | cons r rest ih =>
    cases hpres : r.git_dir_present
    · simp only [execute_sync, hpres, Bool.false_eq_true, if_false]
      cases hg : git (GitOp.clone r.url r.local_path) <;> simp [hg, ih]
    · simp only [execute_sync, hpres, if_true]
      cases hg : git (GitOp.fetchAll r.local_path) <;> simp [hg, ih]

theorem execute_sync_outcome_sum (git : GitExec) (repos : List RepoSyncInfo)
    (rep : SyncReport) :
    (execute_sync git repos rep).1.repos_cloned + (execute_sync git repos rep).1.repos_fetched
        + (execute_sync git repos rep).1.errors.length
      = rep.repos_cloned + rep.repos_fetched + rep.errors.length + repos.length := by
  induction repos generalizing rep with
  | nil => simp [execute_sync]
  | cons r rest ih =>
    cases hpres : r.git_dir_present
    · simp only [execute_sync, hpres, Bool.false_eq_true, if_false]
      cases hg : git (GitOp.clone r.url r.local_path) <;> simp [hg, ih] <;> omega
    · simp only [execute_sync, hpres, if_true]
      cases hg : git (GitOp.fetchAll r.local_path) <;> simp [hg, ih] <;> omega

theorem execute_sync_cloned_le (git : GitExec) (repos : List RepoSyncInfo) (rep : SyncReport) :
    (execute_sync git repos rep).1.repos_cloned
      ≤ rep.repos_cloned + repos.countP (fun t => !t.git_dir_present) := by
  induction repos generalizing rep with
  | nil => simp [execute_sync]
  | cons r rest ih =>
    cases hpres : r.git_dir_present
    · simp only [execute_sync, hpres, Bool.false_eq_true, if_false]
      cases hg : git (GitOp.clone r.url r.local_path) <;>
        simp only [hg] <;>
        refine le_trans (ih _) ?_ <;>
        simp [List.countP_cons, hpres] <;> omega
    · simp only [execute_sync, hpres, if_true]
      cases hg : git (GitOp.fetchAll r.local_path) <;>
        simp only [hg] <;>
        refine le_trans (ih _) ?_ <;>
        simp [List.countP_cons, hpres] <;> omega

theorem execute_sync_fetched_le (git : GitExec) (repos : List RepoSyncInfo) (rep : SyncReport) :
    (execute_sync git repos rep).1.repos_fetched
      ≤ rep.repos_fetched + repos.countP (fun t => t.git_dir_present) := by
  induction repos generalizing rep with
  | nil => simp [execute_sync]
  | cons r rest ih =>
    cases hpres : r.git_dir_present
    · simp only [execute_sync, hpres, Bool.false_eq_true, if_false]
      cases hg : git (GitOp.clone r.url r.local_path) <;>
        simp only [hg] <;>
        refine le_trans (ih _) ?_ <;>
        simp [List.countP_cons, hpres] <;> omega
    · simp only [execute_sync, hpres, if_true]
      cases hg : git (GitOp.fetchAll r.local_path) <;>
        simp only [hg] <;>
        refine le_trans (ih _) ?_ <;>
        simp [List.countP_cons, hpres] <;> omega

theorem countP_not_add (p : RepoSyncInfo → Bool) (l : List RepoSyncInfo) :
    l.countP p + l.countP (fun t => !p t) = l.length := by
  induction l with
  | nil => simp
  | cons r rest ih =>
    cases h : p r <;> simp [List.countP_cons, h] <;> omega

theorem discover_group_repos_ok (api : GitLabApi) (base_dir : String) (fs : String → Bool)
    (target : Option String) (gs : List GroupConfig) :
    ∃ l, discover_group_repos api base_dir fs target gs = .ok l ∧
      ∀ t ∈ l, t.git_dir_present = fs (pathJoin t.local_path ".git") := by
  induction gs with
  | nil => exact ⟨[], rfl, by simp⟩
  | cons g gs ih =>
    obtain ⟨l, hl, hP⟩ := ih
    have hmem : ∀ (projects : List GitLabProject), ∀ t ∈ (projects.map (fun p =>
        convert_gitlab_project_to_repo_config p g.name g.local_dir)).map
          (fun rc => analyze_repo_info rc base_dir fs) ++ l,
        t.git_dir_present = fs (pathJoin t.local_path ".git") := by
      intro projects t ht
      rcases List.mem_append.1 ht with h | h
      · obtain ⟨rc, _, rfl⟩ := List.mem_map.1 h
        rfl
      · exact hP t h
    cases target with
    | none =>
      cases hapi : api g.name g.recursive with
      | error e => exact ⟨l, by simp [discover_group_repos, hapi, hl], hP⟩
      | ok projects =>
        exact ⟨(projects.map (fun p =>
            convert_gitlab_project_to_repo_config p g.name g.local_dir)).map
            (fun rc => analyze_repo_info rc base_dir fs) ++ l,
          by simp [discover_group_repos, hapi, analyze_all_eq, hl], hmem projects⟩
    | some t =>
      cases hskip : containsSub t.data g.name.data with
      | false => exact ⟨l, by simp [discover_group_repos, hskip, hl], hP⟩
      | true =>
        cases hapi : api g.name g.recursive with
        | error e => exact ⟨l, by simp [discover_group_repos, hskip, hapi, hl], hP⟩
        | ok projects =>
          exact ⟨(projects.map (fun p =>
              convert_gitlab_project_to_repo_config p g.name g.local_dir)).map
              (fun rc => analyze_repo_info rc base_dir fs) ++ l,
            by simp [discover_group_repos, hskip, hapi, analyze_all_eq, hl], hmem projects⟩

theorem discover_gitlab_repos_cases (cfg : RangerConfig) (base_dir : String)
    (fs : String → Bool) (env : String → Option String) (client_ok : Bool)
    (api : GitLabApi) (target : Option String) :
    discover_gitlab_repos cfg base_dir fs env client_ok api target = .ok none ∨
    ∃ l, discover_gitlab_repos cfg base_dir fs env client_ok api target = .ok (some l) ∧
      ∀ t ∈ l, t.git_dir_present = fs (pathJoin t.local_path ".git") := by
  cases hpg : cfg.providers.gitlab with
  | none => left; simp [discover_gitlab_repos, hpg]
  | some provider =>
    cases he : envResolve env provider.token with
    | error e => left; simp [discover_gitlab_repos, hpg, he]
    | ok token =>
      by_cases htok : token.data.isEmpty = true
      · left; simp [discover_gitlab_repos, hpg, he, htok]
      · cases client_ok with
        | false => left; simp [discover_gitlab_repos, hpg, he, htok]
        | true =>
          right
          obtain ⟨l, hl, hP⟩ := discover_group_repos_ok api base_dir fs target cfg.groups.gitlab
          exact ⟨l, by simp [discover_gitlab_repos, hpg, he, htok, hl], hP⟩

theorem discover_repos_ok (cfg : RangerConfig) (base_dir : String) (fs : String → Bool)
    (env : String → Option String) (client_ok : Bool) (api : GitLabApi)
    (target : Option String) :
    ∃ l, discover_repos cfg base_dir fs env client_ok api target = .ok l ∧
      ∀ t ∈ l, t.git_dir_present = fs (pathJoin t.local_path ".git") := by
  unfold discover_repos
  rw [analyze_all_eq]
  rcases discover_gitlab_repos_cases cfg base_dir fs env client_ok api target with h | ⟨l, h, hP⟩
  · rw [h]
    refine ⟨_, rfl, ?_⟩
    intro t ht
    obtain ⟨rc, _, rfl⟩ := List.mem_map.1 ht
    rfl
  · rw [h]
    refine ⟨_, rfl, ?_⟩
    intro t ht
    rcases List.mem_append.1 ht with h1 | h1
    · obtain ⟨rc, _, rfl⟩ := List.mem_map.1 h1
      rfl
    · exact hP t h1

/-- C1: at the end of a non-preview run whose configuration loaded successfully, the
returned report satisfies `repos_cloned ≤ repos_to_clone`,
`repos_fetched ≤ repos_to_fetch`, and
`repos_cloned + repos_fetched + length errors = total_repos`: every built target
produces exactly one success-or-failure outcome and no failure removes another
target from the accounting. -/
theorem sync_report_invariant (cfg : RangerConfig) (target : Option String)
    (base_dir : String) (fs : String → Bool) (env : String → Option String)
    (client_ok : Bool) (api : GitLabApi) (git : GitExec) (r : SyncReport)
    (ops : List GitOp)
    (h : sync_command cfg false target base_dir fs env client_ok api git = .ok (r, ops)) :
    r.repos_cloned ≤ r.repos_to_clone ∧ r.repos_fetched ≤ r.repos_to_fetch ∧
    r.repos_cloned + r.repos_fetched + r.errors.length = r.total_repos := by
  obtain ⟨repos, hd, -⟩ := discover_repos_ok cfg base_dir fs env client_ok api target
  unfold sync_command at h
  rw [hd] at h
  simp only [if_false, Bool.false_eq_true, Except.ok.injEq] at h
  have hr1 : (execute_sync git repos (build_initial_report repos)).1 = r := by rw [h]
  have hsum := execute_sync_outcome_sum git repos (build_initial_report repos)
  have hc := execute_sync_cloned_le git repos (build_initial_report repos)
  have hf := execute_sync_fetched_le git repos (build_initial_report repos)
  have ht := execute_sync_total git repos (build_initial_report repos)
  have htc := execute_sync_to_clone git repos (build_initial_report repos)
  have htf := execute_sync_to_fetch git repos (build_initial_report repos)
  rw [hr1] at hsum hc hf ht htc htf
  rw [build_initial_report_eq] at hsum hc hf ht htc htf
  simp at hsum hc hf ht htc htf
  refine ⟨?_, ?_, ?_⟩ <;> omega

/-- Witness for C1 at a concrete one-repo manifest with a fault-free git oracle. -/
theorem sync_report_invariant_witness :
    (⟨1, 1, 0, 1, 0, 0, []⟩ : SyncReport).repos_cloned
        ≤ (⟨1, 1, 0, 1, 0, 0, []⟩ : SyncReport).repos_to_clone ∧
    (⟨1, 1, 0, 1, 0, 0, []⟩ : SyncReport).repos_fetched
        ≤ (⟨1, 1, 0, 1, 0, 0, []⟩ : SyncReport).repos_to_fetch ∧
    (⟨1, 1, 0, 1, 0, 0, []⟩ : SyncReport).repos_cloned
        + (⟨1, 1, 0, 1, 0, 0, []⟩ : SyncReport).repos_fetched
        + (⟨1, 1, 0, 1, 0, 0, []⟩ : SyncReport).errors.length
      = (⟨1, 1, 0, 1, 0, 0, []⟩ : SyncReport).total_repos :=
  sync_report_invariant
    ⟨⟨none, none⟩, ⟨[], []⟩, [⟨"https://h/a/r.git", none⟩]⟩ none "/w"
    (fun _ => false) (fun _ => none) true (fun _ _ => .ok []) (fun _ => none)
    ⟨1, 1, 0, 1, 0, 0, []⟩ [.clone "https://h/a/r.git" "/w/r"] (by rfl)

/-- C3: in preview (dry-run) mode with a successfully loaded configuration, no git
operation is invoked (the operation trace is empty), the report has
`repos_cloned = 0`, `repos_fetched = 0` and no errors, every discovered target is
counted in `repos_to_fetch` precisely when its `local_path/.git` exists (the
`git_dir_present` evidence, which the last conjunct ties to the filesystem oracle)
and in `repos_to_clone` otherwise, and `repos_to_clone + repos_to_fetch = total_repos`. -/
theorem dry_run_frame (cfg : RangerConfig) (target : Option String) (base_dir : String)
    (fs : String → Bool) (env : String → Option String) (client_ok : Bool)
    (api : GitLabApi) (git : GitExec) (repos : List RepoSyncInfo) (r : SyncReport)
    (ops : List GitOp)
    (hd : discover_repos cfg base_dir fs env client_ok api target = .ok repos)
    (h : sync_command cfg true target base_dir fs env client_ok api git = .ok (r, ops)) :
    ops = [] ∧ r.repos_cloned = 0 ∧ r.repos_fetched = 0 ∧ r.errors = [] ∧
    r.repos_to_fetch = repos.countP (fun t => t.git_dir_present) ∧
    r.repos_to_clone = repos.countP (fun t => !t.git_dir_present) ∧
    r.repos_to_clone + r.repos_to_fetch = r.total_repos ∧
    r.total_repos = repos.length ∧
    (∀ t ∈ repos, t.git_dir_present = fs (pathJoin t.local_path ".git")) := by
  obtain ⟨l, hdl, hP⟩ := discover_repos_ok cfg base_dir fs env client_ok api target
  rw [hd] at hdl
  injection hdl with hel
  subst hel
  unfold sync_command at h
  rw [hd] at h
  simp only [if_true, Except.ok.injEq, Prod.mk.injEq] at h
  obtain ⟨hr, hops⟩ := h
  subst hr
  subst hops
  rw [build_initial_report_eq]
  have hpart := countP_not_add (fun t => t.git_dir_present) repos
  exact ⟨rfl, rfl, rfl, rfl, rfl, rfl, by simp; omega, rfl, hP⟩

/-- Witness for C3 at a concrete one-repo manifest in dry-run mode. -/
theorem dry_run_frame_witness :
    ([] : List GitOp) = [] ∧
    (⟨1, 1, 0, 0, 0, 0, []⟩ : SyncReport).repos_cloned = 0 ∧
    (⟨1, 1, 0, 0, 0, 0, []⟩ : SyncReport).repos_fetched = 0 ∧
    (⟨1, 1, 0, 0, 0, 0, []⟩ : SyncReport).errors = [] ∧
    (⟨1, 1, 0, 0, 0, 0, []⟩ : SyncReport).repos_to_fetch
      = [(⟨"https://h/a/r.git", "r", "/w/r", false⟩ : RepoSyncInfo)].countP
          (fun t => t.git_dir_present) ∧
    (⟨1, 1, 0, 0, 0, 0, []⟩ : SyncReport).repos_to_clone
      = [(⟨"https://h/a/r.git", "r", "/w/r", false⟩ : RepoSyncInfo)].countP
          (fun t => !t.git_dir_present) ∧
    (⟨1, 1, 0, 0, 0, 0, []⟩ : SyncReport).repos_to_clone
        + (⟨1, 1, 0, 0, 0, 0, []⟩ : SyncReport).repos_to_fetch
      = (⟨1, 1, 0, 0, 0, 0, []⟩ : SyncReport).total_repos ∧
    (⟨1, 1, 0, 0, 0, 0, []⟩ : SyncReport).total_repos
      = [(⟨"https://h/a/r.git", "r", "/w/r", false⟩ : RepoSyncInfo)].length := by
  obtain ⟨h1, h2, h3, h4, h5, h6, h7, h8, -⟩ := dry_run_frame
    ⟨⟨none, none⟩, ⟨[], []⟩, [⟨"https://h/a/r.git", none⟩]⟩ none "/w"
    (fun _ => false) (fun _ => none) true (fun _ _ => .ok []) (fun _ => none)
    [⟨"https://h/a/r.git", "r", "/w/r", false⟩] ⟨1, 1, 0, 0, 0, 0, []⟩ []
    (by rfl) (by rfl)
  exact ⟨h1, h2, h3, h4, h5, h6, h7, h8⟩

/-- C4: when resolving the GitLab provider token fails, the run does not error —
GitLab discovery yields no targets (every group is skipped), the built target list
is exactly the filtered standalone manifest repos, and the non-preview run proceeds
to process exactly that list. -/
theorem gitlab_token_failure_graceful (cfg : RangerConfig) (target : Option String)
    (base_dir : String) (fs : String → Bool) (env : String → Option String)
    (client_ok : Bool) (api : GitLabApi) (git : GitExec) (provider : GitLabProvider)
    (e : String)
    (hp : cfg.providers.gitlab = some provider)
    (he : envResolve env provider.token = .error e) :
    discover_gitlab_repos cfg base_dir fs env client_ok api target = .ok none ∧
    discover_repos cfg base_dir fs env client_ok api target =
      .ok ((cfg.repos.filter (fun rc => should_sync_repo rc target)).map
        (fun rc => analyze_repo_info rc base_dir fs)) ∧
    sync_command cfg false target base_dir fs env client_ok api git =
      .ok (execute_sync git
        ((cfg.repos.filter (fun rc => should_sync_repo rc target)).map
          (fun rc => analyze_repo_info rc base_dir fs))
        (build_initial_report
          ((cfg.repos.filter (fun rc => should_sync_repo rc target)).map
            (fun rc => analyze_repo_info rc base_dir fs)))) := by
  have h1 : discover_gitlab_repos cfg base_dir fs env client_ok api target = .ok none := by
    simp [discover_gitlab_repos, hp, he]
  have h2 : discover_repos cfg base_dir fs env client_ok api target =
      .ok ((cfg.repos.filter (fun rc => should_sync_repo rc target)).map
        (fun rc => analyze_repo_info rc base_dir fs)) := by
    simp [discover_repos, analyze_all_eq, h1]
  refine ⟨h1, h2, ?_⟩
  simp [sync_command, h2]

/-- Witness for C4: a manifest with one GitLab group and one standalone repo, whose
token is an environment reference that fails to resolve. -/
theorem gitlab_token_failure_graceful_witness :
    discover_gitlab_repos
      ⟨⟨some ⟨"https://gl", "$\x7bGL_TOKEN\x7d"⟩, none⟩, ⟨[⟨"team", none, false⟩], []⟩,
        [⟨"https://h/a/r.git", none⟩]⟩ "/w" (fun _ => false) (fun _ => none) true
      (fun _ _ => .ok []) none = .ok none ∧
    discover_repos
      ⟨⟨some ⟨"https://gl", "$\x7bGL_TOKEN\x7d"⟩, none⟩, ⟨[⟨"team", none, false⟩], []⟩,
        [⟨"https://h/a/r.git", none⟩]⟩ "/w" (fun _ => false) (fun _ => none) true
      (fun _ _ => .ok []) none =
      .ok (((⟨⟨some ⟨"https://gl", "$\x7bGL_TOKEN\x7d"⟩, none⟩,
          ⟨[⟨"team", none, false⟩], []⟩,
          [⟨"https://h/a/r.git", none⟩]⟩ : RangerConfig).repos.filter
            (fun rc => should_sync_repo rc none)).map
        (fun rc => analyze_repo_info rc "/w" (fun _ => false))) ∧
    sync_command
      ⟨⟨some ⟨"https://gl", "$\x7bGL_TOKEN\x7d"⟩, none⟩, ⟨[⟨"team", none, false⟩], []⟩,
        [⟨"https://h/a/r.git", none⟩]⟩ false none "/w" (fun _ => false) (fun _ => none)
      true (fun _ _ => .ok []) (fun _ => none) =
      .ok (execute_sync (fun _ => none)
        (((⟨⟨some ⟨"https://gl", "$\x7bGL_TOKEN\x7d"⟩, none⟩,
            ⟨[⟨"team", none, false⟩], []⟩,
            [⟨"https://h/a/r.git", none⟩]⟩ : RangerConfig).repos.filter
              (fun rc => should_sync_repo rc none)).map
          (fun rc => analyze_repo_info rc "/w" (fun _ => false)))
        (build_initial_report
          (((⟨⟨some ⟨"https://gl", "$\x7bGL_TOKEN\x7d"⟩, none⟩,
              ⟨[⟨"team", none, false⟩], []⟩,
              [⟨"https://h/a/r.git", none⟩]⟩ : RangerConfig).repos.filter
                (fun rc => should_sync_repo rc none)).map
            (fun rc => analyze_repo_info rc "/w" (fun _ => false))))) :=
  gitlab_token_failure_graceful
    ⟨⟨some ⟨"https://gl", "$\x7bGL_TOKEN\x7d"⟩, none⟩, ⟨[⟨"team", none, false⟩], []⟩,
      [⟨"https://h/a/r.git", none⟩]⟩ none "/w" (fun _ => false) (fun _ => none) true
    (fun _ _ => .ok []) (fun _ => none) ⟨"https://gl", "$\x7bGL_TOKEN\x7d"⟩
    "Environment variable GL_TOKEN is not set" (by rfl) (by rfl)

/-- C6: for the path resolution of `analyze_repo` — an absolute override yields
`override/name` for every base directory (the base directory is ignored entirely);
a relative override yields `baseDir/override/name`; no override yields
`baseDir/name`. Stated for well-formed path pieces: nonempty base and override not
ending in a separator, and a name not starting with one. -/
theorem resolve_path_spec (base od name : String)
    (hname : name.data.head? ≠ some '/')
    (hbase_ne : base.data ≠ []) (hbase_sl : base.data.getLast? ≠ some '/')
    (hod_ne : od.data ≠ []) (hod_sl : od.data.getLast? ≠ some '/') :
    (od.data.head? = some '/' →
      ∀ base2 : String, resolve_local_path base2 (some od) name = od ++ "/" ++ name) ∧
    (od.data.head? ≠ some '/' →
      resolve_local_path base (some od) name = base ++ "/" ++ od ++ "/" ++ name) ∧
    resolve_local_path base none name = base ++ "/" ++ name := by
  refine ⟨?_, ?_, ?_⟩
  · intro habs base2
    have h1 : pathJoin base2 od = od := by
      unfold pathJoin
      rw [if_pos habs]
    have h2 : pathJoin od name = od ++ "/" ++ name := by
      unfold pathJoin
      rw [if_neg hname, if_neg hod_ne, if_neg hod_sl]
    simp only [resolve_local_path]
    rw [h1, h2]
  · intro hrel
    have h1 : pathJoin base od = base ++ "/" ++ od := by
      unfold pathJoin
      rw [if_neg hrel, if_neg hbase_ne, if_neg hbase_sl]
    have hdata : (base ++ "/" ++ od).data = (base.data ++ "/".data) ++ od.data := by
      rw [String.data_append, String.data_append]
    have hne2 : (base ++ "/" ++ od).data ≠ [] := by
      rw [hdata]
      simp [hod_ne]
    have hsl2 : (base ++ "/" ++ od).data.getLast? ≠ some '/' := by
      rw [hdata, List.getLast?_append_of_ne_nil _ hod_ne]
      exact hod_sl
    have h2 : pathJoin (base ++ "/" ++ od) name = base ++ "/" ++ od ++ "/" ++ name := by
      unfold pathJoin
      rw [if_neg hname, if_neg hne2, if_neg hsl2]
    simp only [resolve_local_path]
    rw [h1, h2]
  · simp only [resolve_local_path]
    unfold pathJoin
    rw [if_neg hname, if_neg hbase_ne, if_neg hbase_sl]

/-- Witness for C6 at the base directory "/w", overrides "/abs" and "sub", and
repository name "repo". -/
theorem resolve_path_spec_witness :
    resolve_local_path "/ignored" (some "/abs") "repo" = "/abs" ++ "/" ++ "repo" ∧
    resolve_local_path "/w" (some "sub") "repo" = "/w" ++ "/" ++ "sub" ++ "/" ++ "repo" ∧
    resolve_local_path "/w" none "repo" = "/w" ++ "/" ++ "repo" :=
  ⟨(resolve_path_spec "/w" "/abs" "repo" (by decide) (by decide) (by decide) (by decide)
      (by decide)).1 (by decide) "/ignored",
   (resolve_path_spec "/w" "sub" "repo" (by decide) (by decide) (by decide) (by decide)
      (by decide)).2.1 (by decide),
   (resolve_path_spec "/w" "sub" "repo" (by decide) (by decide) (by decide) (by decide)
      (by decide)).2.2⟩

/-- C10: a GitLab group configured without a local directory prefix gives every
discovered project — in particular one in a nested subgroup, whose
`path_with_namespace` is `group/sub/.../project` — an absent `local_dir`, so its
resolved local path is `baseDir/name` directly: the intermediate subgroup segments
are dropped rather than preserved as a subpath. -/
theorem nested_subgroup_dropped_without_prefix (project : GitLabProject)
    (group_name : String) (base_dir : String) (fs : String → Bool) :
    (convert_gitlab_project_to_repo_config project group_name none).local_dir = none ∧
    (analyze_repo_info (convert_gitlab_project_to_repo_config project group_name none)
        base_dir fs).local_path
      = pathJoin base_dir (extract_repo_name project.ssh_url_to_repo) := by
  have h1 : (convert_gitlab_project_to_repo_config project group_name none).local_dir
      = none := by
    unfold convert_gitlab_project_to_repo_config
    cases hs : stripPrefixChars (group_name ++ "/").data project.path_with_namespace.data with
    | none => simp [hs]
    | some suffix => cases hr : rsplitOnce '/' suffix <;> simp [hs, hr]
  have h2 : (convert_gitlab_project_to_repo_config project group_name none).url
      = project.ssh_url_to_repo := rfl
  refine ⟨h1, ?_⟩
  simp only [analyze_repo_info, h1, h2, resolve_local_path]

/-- C5: for every page request the pagination loop makes — a transport-level send
failure yields a request-failure outcome; HTTP 401 or 403 yields an
authentication-failure outcome (never a generic request-failure); HTTP 404 yields a
group-not-found outcome carrying the original group path; any other non-2xx status
yields a request-failure outcome carrying the status and body text; and a 2xx body
that fails to parse as a project list yields a parse-failure outcome. -/
theorem page_error_mapping {β : Type} (srv : Server β) (gp : String) (page fuel : Nat)
    (acc : List GitLabProject) :
    (∀ e, srv.send page = .failure e →
      get_group_projects_loop srv gp page (fuel + 1) acc = .error (.RequestFailed e)) ∧
    (∀ s b, srv.send page = .response s b → (s = 401 ∨ s = 403) →
      get_group_projects_loop srv gp page (fuel + 1) acc
        = .error (.AuthenticationFailed "Invalid or expired token")) ∧
    (∀ b, srv.send page = .response 404 b →
      get_group_projects_loop srv gp page (fuel + 1) acc = .error (.GroupNotFound gp)) ∧
    (∀ s b, srv.send page = .response s b → ¬(s = 401 ∨ s = 403) → s ≠ 404 →
      ¬(200 ≤ s ∧ s ≤ 299) →
      get_group_projects_loop srv gp page (fuel + 1) acc
        = .error (.RequestFailed ("HTTP " ++ toString s ++ ": " ++ srv.text b))) ∧
    (∀ s b e, srv.send page = .response s b → 200 ≤ s → s ≤ 299 →
      srv.json b = .error e →
      get_group_projects_loop srv gp page (fuel + 1) acc = .error (.ParseError e)) := by
  refine ⟨?_, ?_, ?_, ?_, ?_⟩
  · intro e hsend
    simp only [get_group_projects_loop, hsend]
  · intro s b hsend hauth
    simp only [get_group_projects_loop, hsend]
    rw [if_pos hauth]
  · intro b hsend
    simp only [get_group_projects_loop, hsend]
    rw [if_neg (by omega : ¬((404 : Nat) = 401 ∨ (404 : Nat) = 403))]
    simp
  · intro s b hsend hnauth hn404 hn2xx
    simp only [get_group_projects_loop, hsend]
    rw [if_neg hnauth, if_neg hn404, if_pos hn2xx]
  · intro s b e hsend hlo hhi hjson
    simp only [get_group_projects_loop, hsend]
    rw [if_neg (by omega), if_neg (by omega), if_neg (by omega : ¬¬(200 ≤ s ∧ s ≤ 299)),
      hjson]

/-- Witness for C5: five concrete single-behavior servers, one per outcome class. -/
theorem page_error_mapping_witness :
    get_group_projects_loop
      (⟨fun _ => .failure "dns", fun b => .ok b, fun _ => ""⟩ :
        Server (List GitLabProject)) "g" 1 100 [] = .error (.RequestFailed "dns") ∧
    get_group_projects_loop
      (⟨fun _ => .response 401 [], fun b => .ok b, fun _ => ""⟩ :
        Server (List GitLabProject)) "g" 1 100 []
      = .error (.AuthenticationFailed "Invalid or expired token") ∧
    get_group_projects_loop
      (⟨fun _ => .response 404 [], fun b => .ok b, fun _ => ""⟩ :
        Server (List GitLabProject)) "g" 1 100 [] = .error (.GroupNotFound "g") ∧
    get_group_projects_loop
      (⟨fun _ => .response 500 [], fun b => .ok b, fun _ => "oops"⟩ :
        Server (List GitLabProject)) "g" 1 100 []
      = .error (.RequestFailed ("HTTP " ++ toString 500 ++ ": " ++ "oops")) ∧
    get_group_projects_loop
      (⟨fun _ => .response 200 [], fun _ => .error "bad json", fun _ => ""⟩ :
        Server (List GitLabProject)) "g" 1 100 [] = .error (.ParseError "bad json") :=
  ⟨(page_error_mapping ⟨fun _ => .failure "dns", fun b => .ok b, fun _ => ""⟩
      "g" 1 99 []).1 "dns" rfl,
   (page_error_mapping ⟨fun _ => .response 401 [], fun b => .ok b, fun _ => ""⟩
      "g" 1 99 []).2.1 401 [] rfl (by omega),
   (page_error_mapping ⟨fun _ => .response 404 [], fun b => .ok b, fun _ => ""⟩
      "g" 1 99 []).2.2.1 [] rfl,
   (page_error_mapping ⟨fun _ => .response 500 [], fun b => .ok b, fun _ => "oops"⟩
      "g" 1 99 []).2.2.2.1 500 [] rfl (by omega) (by omega) (by omega),
   (page_error_mapping ⟨fun _ => .response 200 [], fun _ => .error "bad json", fun _ => ""⟩
      "g" 1 99 []).2.2.2.2 200 [] "bad json" rfl (by omega) (by omega) rfl⟩

theorem loop_pure_step (pages : Nat → List GitLabProject) (gp : String) (page fuel : Nat)
    (acc : List GitLabProject) :
    get_group_projects_loop (pureServer pages) gp page (fuel + 1) acc =
      if pages page = [] then .ok acc
      else if 100 < page + 1 then .ok (acc ++ pages page)
      else get_group_projects_loop (pureServer pages) gp (page + 1) fuel
        (acc ++ pages page) := by
  simp only [get_group_projects_loop, pureServer]
  rw [if_neg (by omega : ¬((200 : Nat) = 401 ∨ (200 : Nat) = 403)),
      if_neg (by omega : (200 : Nat) ≠ 404),
      if_neg (by omega : ¬¬(200 ≤ (200 : Nat) ∧ (200 : Nat) ≤ 299))]
  simp [List.isEmpty_iff]

theorem loop_pure_run (pages : Nat → List GitLabProject) (gp : String) (N : Nat)
    (hN : N < 100) (hne : ∀ p, 1 ≤ p → p ≤ N → pages p ≠ [])
    (hempty : pages (N + 1) = []) :
    ∀ k p acc, 1 ≤ p → p + k = N + 1 →
      get_group_projects_loop (pureServer pages) gp p (101 - p) acc =
        .ok (acc ++ ((List.range' p k).map pages).join) := by
  intro k
  induction k with
  | zero =>
    intro p acc hp hpk
    have hfuel : 101 - p = (100 - p) + 1 := by omega
    rw [hfuel, loop_pure_step]
    have hplast : pages p = [] := by
      rw [(by omega : p = N + 1)]
      exact hempty
    rw [if_pos hplast]
    simp
  | succ k ih =>
    intro p acc hp hpk
    have hfuel : 101 - p = (100 - p) + 1 := by omega
    rw [hfuel, loop_pure_step]
    have hpne : pages p ≠ [] := hne p hp (by omega)
    rw [if_neg hpne, if_neg (by omega : ¬100 < p + 1),
        (by omega : 100 - p = 101 - (p + 1)),
        ih (p + 1) (acc ++ pages p) (by omega) (by omega)]
    simp [List.range'_succ, List.append_assoc]

/-- C7: for a server behaving as a function from page number to a project list, with
fewer than 100 non-empty pages and the first empty page right after them, the
pagination loop returns the concatenation of the non-empty pages 1..N in request
order. Pages beyond the first empty one are universally quantified and unconstrained,
so the result cannot depend on them — the loop stops at the first empty page. -/
theorem pagination_concat (pages : Nat → List GitLabProject) (gp : String) (N : Nat)
    (hN : N < 100) (hne : ∀ p, 1 ≤ p → p ≤ N → pages p ≠ [])
    (hempty : pages (N + 1) = []) :
    get_group_projects (pureServer pages) gp
      = .ok (((List.range' 1 N).map pages).join) := by
  have h := loop_pure_run pages gp N hN hne hempty N 1 [] (by omega) (by omega)
  rw [(by rfl : (101 : Nat) - 1 = 100)] at h
  simpa [get_group_projects] using h

/-- Witness for C7: two non-empty pages followed by an empty third page. -/
theorem pagination_concat_witness :
    get_group_projects
      (pureServer (fun p => if p ≤ 2 then
        [⟨7, "a", "a", "g/a", "git@h:g/a.git", "https://h/g/a.git"⟩] else [])) "g"
      = .ok (((List.range' 1 2).map (fun p => if p ≤ 2 then
        [⟨7, "a", "a", "g/a", "git@h:g/a.git", "https://h/g/a.git"⟩] else [])).join) :=
  pagination_concat
    (fun p => if p ≤ 2 then
      [⟨7, "a", "a", "g/a", "git@h:g/a.git", "https://h/g/a.git"⟩] else []) "g" 2
    (by omega) (fun p h1 h2 => by simp [h2]) (by simp)

theorem loop_pure_cap_run (pages : Nat → List GitLabProject) (gp : String)
    (hne : ∀ p, pages p ≠ []) :
    ∀ k p acc, 1 ≤ p → p + k = 101 →
      get_group_projects_loop (pureServer pages) gp p (101 - p) acc =
        .ok (acc ++ ((List.range' p k).map pages).join) := by
  intro k
  induction k with
  | zero =>
    intro p acc hp hpk
    rw [(by omega : 101 - p = 0)]
    simp [get_group_projects_loop]
  | succ k ih =>
    intro p acc hp hpk
    have hfuel : 101 - p = (100 - p) + 1 := by omega
    rw [hfuel, loop_pure_step, if_neg (hne p)]
    by_cases hcap : 100 < p + 1
    · rw [if_pos hcap]
      have hk : k = 0 := by omega
      subst hk
      simp [List.range'_succ]
    · rw [if_neg hcap, (by omega : 100 - p = 101 - (p + 1)),
          ih (p + 1) (acc ++ pages p) (by omega) (by omega)]
      simp [List.range'_succ, List.append_assoc]

theorem loop_requests_bounded {β : Type} (srv1 srv2 : Server β) (gp : String)
    (hsend : ∀ p, p ≤ 100 → srv1.send p = srv2.send p)
    (hjson : ∀ b, srv1.json b = srv2.json b) (htext : ∀ b, srv1.text b = srv2.text b) :
    ∀ fuel p acc, p + fuel ≤ 101 →
      get_group_projects_loop srv1 gp p fuel acc
        = get_group_projects_loop srv2 gp p fuel acc := by
  intro fuel
  induction fuel with
  | zero => intro p acc h; rfl
  | succ fuel ih =>
    intro p acc h
    simp only [get_group_projects_loop]
    rw [hsend p (by omega)]
    cases srv2.send p with
    | failure e => rfl
    | response s b =>
      dsimp only
      rw [htext b, hjson b]
      split
      · rfl
      · split
        · rfl
        · split
          · rfl
          · cases srv2.json b with
            | error e => rfl
            | ok projects =>
              cases hemp : projects.isEmpty
              · simp only [hemp, Bool.false_eq_true, if_false]
                by_cases hcap : 100 < p + 1
                · rw [if_pos hcap, if_pos hcap]
                · rw [if_neg hcap, if_neg hcap]
                  exact ih (p + 1) (acc ++ projects) (by omega)
              · simp [hemp]

/-- C8: the pagination loop terminates after at most 100 page requests for every
server behavior — first conjunct: a server whose every page is non-empty yields a
successful truncated result, the concatenation of pages 1..100, not an error;
second conjunct: for arbitrary servers the result depends only on the responses to
pages 1 through 100, so no later page is ever requested. -/
theorem pagination_cap (pages : Nat → List GitLabProject) (gp : String)
    (hne : ∀ p, pages p ≠ []) :
    get_group_projects (pureServer pages) gp
      = .ok (((List.range' 1 100).map pages).join) ∧
    ∀ (β : Type) (srv1 srv2 : Server β),
      (∀ p, p ≤ 100 → srv1.send p = srv2.send p) →
      (∀ b, srv1.json b = srv2.json b) →
      (∀ b, srv1.text b = srv2.text b) →
      get_group_projects srv1 gp = get_group_projects srv2 gp := by
  constructor
  · have h := loop_pure_cap_run pages gp hne 100 1 [] (by omega) (by omega)
    rw [(by rfl : (101 : Nat) - 1 = 100)] at h
    simpa [get_group_projects] using h
  · intro β srv1 srv2 hsend hjson htext
    exact loop_requests_bounded srv1 srv2 gp hsend hjson htext 100 1 [] (by omega)

/-- Witness for C8: a server that answers every page with the same non-empty list. -/
theorem pagination_cap_witness :
    get_group_projects
      (pureServer (fun _ =>
        [⟨9, "b", "b", "g/b", "git@h:g/b.git", "https://h/g/b.git"⟩])) "g"
      = .ok (((List.range' 1 100).map (fun _ =>
        [⟨9, "b", "b", "g/b", "git@h:g/b.git", "https://h/g/b.git"⟩])).join) :=
  (pagination_cap
    (fun _ => [⟨9, "b", "b", "g/b", "git@h:g/b.git", "https://h/g/b.git"⟩]) "g"
    (fun p => by simp)).1

theorem splitOnChar_ne_nil (c : Char) (xs : List Char) : splitOnChar c xs ≠ [] := by
  cases xs with
  | nil => simp [splitOnChar]
  | cons x xs =>
    simp only [splitOnChar]
    by_cases h : x = c
    · simp [h]
    · rw [if_neg h]
      cases splitOnChar c xs <;> simp

theorem splitOnChar_no_sep (c : Char) (ys : List Char) (h : c ∉ ys) :
    splitOnChar c ys = [ys] := by
  induction ys with
  | nil => rfl
  | cons y ys ih =>
    have hy : ¬y = c := fun e => h (by simp [e])
    have hys : c ∉ ys := fun hm => h (List.mem_cons_of_mem _ hm)
    simp only [splitOnChar, if_neg hy, ih hys]

theorem splitOnChar_length_append (c : Char) (xs ys : List Char) (h : c ∉ ys) :
    (splitOnChar c (xs ++ ys)).length = (splitOnChar c xs).length := by
  induction xs with
  | nil =>
    rw [List.nil_append, splitOnChar_no_sep c ys h]
    rfl
  | cons x xs ih =>
    by_cases hx : x = c
    · simp only [List.cons_append, splitOnChar, if_pos hx, List.length_cons,
        List.append_eq, ih]
    · simp only [List.cons_append, splitOnChar, if_neg hx]
      cases h1 : splitOnChar c (xs ++ ys) with
      | nil => exact absurd h1 (splitOnChar_ne_nil c _)
      | cons r rs =>
        cases h2 : splitOnChar c xs with
        | nil => exact absurd h2 (splitOnChar_ne_nil c _)
        | cons r2 rs2 =>
          have hl := ih
          rw [h1, h2] at hl
          simpa using hl

theorem getLastD_irrel (l : List (List Char)) (h : l ≠ []) (d1 d2 : List Char) :
    l.getLastD d1 = l.getLastD d2 := by
  cases l with
  | nil => exact absurd rfl h
  | cons a l => rw [List.getLastD_cons, List.getLastD_cons]

theorem getLastD_splitOnChar_append (c : Char) (xs ys : List Char) (h : c ∉ ys) :
    ∀ d, (splitOnChar c (xs ++ ys)).getLastD d = (splitOnChar c xs).getLastD d ++ ys := by
  induction xs with
  | nil =>
    intro d
    rw [List.nil_append, splitOnChar_no_sep c ys h]
    simp [splitOnChar]
  | cons x xs ih =>
    intro d
    by_cases hx : x = c
    · simp only [List.cons_append, splitOnChar, if_pos hx, List.append_eq,
        List.getLastD_cons]
      exact ih []
    · simp only [List.cons_append, splitOnChar, if_neg hx]
      cases h1 : splitOnChar c (xs ++ ys) with
      | nil => exact absurd h1 (splitOnChar_ne_nil c _)
      | cons r rs =>
        cases h2 : splitOnChar c xs with
        | nil => exact absurd h2 (splitOnChar_ne_nil c _)
        | cons r2 rs2 =>
          have hlen := splitOnChar_length_append c xs ys h
          rw [h1, h2] at hlen
          have hih := ih d
          rw [h1, h2] at hih
          cases rs with
          | nil =>
            cases rs2 with
            | nil =>
              simp only [List.getLastD_cons, List.getLastD_nil] at hih ⊢
              rw [hih]
              rfl
            | cons rr2 rrs2 => simp at hlen
          | cons rr rrs =>
            cases rs2 with
            | nil => simp at hlen
            | cons rr2 rrs2 =>
              rw [List.getLastD_cons d r (rr :: rrs),
                  List.getLastD_cons d r2 (rr2 :: rrs2)] at hih
              rw [List.getLastD_cons d (x :: r) (rr :: rrs),
                  List.getLastD_cons d (x :: r2) (rr2 :: rrs2)]
              rw [getLastD_irrel (rr :: rrs) (by simp) (x :: r) r, hih,
                  getLastD_irrel (rr2 :: rrs2) (by simp) r2 (x :: r2)]

theorem splitOnChar_append_sep (c : Char) (xs : List Char) :
    splitOnChar c (xs ++ [c]) = splitOnChar c xs ++ [[]] := by
  induction xs with
  | nil => simp [splitOnChar]
  | cons x xs ih =>
    by_cases hx : x = c
    · simp only [List.cons_append, splitOnChar, if_pos hx, List.append_eq, ih]
    · simp only [List.cons_append, splitOnChar, if_neg hx, List.append_eq]
      rw [ih]
      cases h2 : splitOnChar c xs with
      | nil => exact absurd h2 (splitOnChar_ne_nil c _)
      | cons r rs => simp

theorem extract_append_git (url : String) :
    extract_repo_name (url ++ ".git") = extract_repo_name url := by
  unfold extract_repo_name
  apply congrArg String.mk
  rw [String.data_append]
  rw [getLastD_splitOnChar_append '/' url.data ".git".data (by decide)]
  rw [List.reverse_append]
  rw [(by rfl : (".git" : String).data.reverse = ['t', 'i', 'g', '.'])]
  rfl

theorem extract_after_last_slash (u v : String) (h : '/' ∉ v.data) :
    extract_repo_name (u ++ "/" ++ v) = extract_repo_name v := by
  unfold extract_repo_name
  apply congrArg String.mk
  rw [String.data_append, String.data_append]
  rw [(by rfl : ("/" : String).data = ['/'])]
  rw [getLastD_splitOnChar_append '/' (u.data ++ ['/']) v.data h]
  rw [splitOnChar_append_sep, List.getLastD_concat]
  rw [splitOnChar_no_sep '/' v.data h]
  rfl

/-- C2 counterexample: the code does not strip a trailing path separator, so a URL
ending in `.git/` does not derive the same name as its `.git`-stripped,
slash-stripped form — `https://host/a/b.git/` yields the empty string while
`https://host/a/b` yields `b`. -/
theorem extract_trailing_slash_counterexample :
    extract_repo_name "https://host/a/b.git/" = "" ∧
    extract_repo_name "https://host/a/b" = "b" ∧
    extract_repo_name "https://host/a/b.git/" ≠ extract_repo_name "https://host/a/b" :=
  ⟨by decide, by decide, by decide⟩

/-- C2 amended: for every URL without a trailing slash, appending `.git` never
changes the derived name (so `https://host/a/b.git` and `https://host/a/b` both
yield `b`), but a trailing path separator is not stripped:
`https://host/a/b.git/` yields the empty string, because after splitting on `/`
the last segment is empty. -/
theorem extract_git_suffix_amended :
    (∀ url : String, extract_repo_name (url ++ ".git") = extract_repo_name url) ∧
    extract_repo_name "https://host/a/b.git" = "b" ∧
    extract_repo_name "https://host/a/b" = "b" ∧
    extract_repo_name "https://host/a/b.git/" = "" :=
  ⟨extract_append_git, by decide, by decide, by decide⟩

/-- C9 counterexample: the code never splits on `:`, so an scp-style URL whose path
part has no `/` keeps its `host` prefix — `git@host:project.git` yields
`git@host:project`, not `project`. -/
theorem extract_scp_no_colon_counterexample :
    extract_repo_name "git@host:project.git" = "git@host:project" ∧
    "git@host:project" ≠ "project" :=
  ⟨by decide, by decide⟩

/-- C9 amended: the derived name is the final segment after splitting on `/` only
(with `.git` stripped); no split on `:` is performed. Hence
`git@host:group/project.git` yields `project` (the general first conjunct: the name
depends only on the part after the last `/`), while an scp-style URL with no `/` in
its path, such as `git@host:project.git`, yields `git@host:project`. -/
theorem extract_scp_amended :
    (∀ u v : String, '/' ∉ v.data →
      extract_repo_name (u ++ "/" ++ v) = extract_repo_name v) ∧
    extract_repo_name "git@host:group/project.git" = "project" ∧
    extract_repo_name "git@host:project.git" = "git@host:project" :=
  ⟨extract_after_last_slash, by decide, by decide⟩

/-- Witness for the amended C9: the general conjunct applied at
`git@host:group` / `project.git`. -/
theorem extract_scp_amended_witness :
    extract_repo_name ("git@host:group" ++ "/" ++ "project.git")
      = extract_repo_name "project.git" :=
  extract_scp_amended.1 "git@host:group" "project.git" (by decide)

end GitRanger
